import Mathlib

/-!
Shallow embedding of the andesite.py transport session
(`andesite/web_socket_client.py`, class `AndesiteWebSocketBase`) and of the
guild-affinity pool (`andesite/pools.py`, class `WebSocketPoolBase`),
together with theorems checking the specification against the code.

Conventions used throughout:
* machine integers are `Nat` (guild ids and attempt counters are
  non-negative in the source);
* Python dictionaries are insertion-ordered association lists;
* fallible code returns `Except PyErr` or carries an `Option PyErr` field;
* external collaborators (the `websockets` library, `random.choice`, the
  JSON codec) enter as explicit oracle parameters or as simple executable
  stand-ins, as noted at each definition.
-/

namespace Andesite

/-- Python exceptions raised by the modelled code paths. -/
inductive PyErr where
  | valueError (msg : String)
  | connectionError (attemptCounter : Nat)
  | connectionClosed
  | typeError
  | keyError
  | poolEmpty
deriving DecidableEq

/-! ### Association-list dictionaries

Insertion-ordered association lists stand in for Python `dict`,
`WeakValueDictionary` and `WeakKeyDictionary` (keys are unique in every
reachable state; garbage collection never fires in the model because the
pool holds strong references to its member clients). -/

/-- Python `d.get(k)` / `d[k]`: value of the first entry with key `k`. -/
def alGet {α β : Type} [DecidableEq α] : List (α × β) → α → Option β
  | [], _ => none
  | (k0, v0) :: rest, k => if k0 = k then some v0 else alGet rest k

/-- Python `d[k] = v`: overwrite the entry in place, else append at the end. -/
def alSet {α β : Type} [DecidableEq α] : List (α × β) → α → β → List (α × β)
  | [], k, v => [(k, v)]
  | (k0, v0) :: rest, k, v =>
    if k0 = k then (k0, v) :: rest else (k0, v0) :: alSet rest k v

/-- Python `del d[k]` ignoring a missing key (entries with key `k` are
removed; keys are unique in reachable states). -/
def alDel {α β : Type} [DecidableEq α] : List (α × β) → α → List (α × β)
  | [], _ => []
  | (k0, v0) :: rest, k => if k0 = k then alDel rest k else (k0, v0) :: alDel rest k

/-! ### Transport session: connect retry loop (`AndesiteWebSocketBase._connect`) -/

/-- Back-off sleep after a failed attempt `k`:
`timeout = int(math.pow(attempt, 1.5))` (line 851), and
`⌊k^1.5⌋ = ⌊√(k^3)⌋` seconds. -/
def backoff (k : Nat) : Nat := Nat.sqrt (k ^ 3)

/-- Resolution `max_attempts = max_attempts or self.max_connect_attempts`
(line 844). Python `or` falls through both on `None` and on the falsy `0`. -/
def resolveMaxAttempts (arg inst : Option Nat) : Option Nat :=
  match arg with
  | none => inst
  | some 0 => inst
  | some (k + 1) => some (k + 1)

/-- Result of the `while` retry loop of `_connect` (lines 846-858). -/
inductive ConnectOutcome where
  | success (attempt : Nat)
  | exhausted (attemptCounter : Nat)
deriving DecidableEq

/-- Trace of one execution of the retry loop: its outcome, the attempt
numbers on which `try_connect` was called, and the sleeps performed, in
order. -/
structure ConnectRun where
  outcome : ConnectOutcome
  attemptsTried : List Nat
  sleeps : List Nat
deriving DecidableEq

/-- The retry loop of `_connect` for a bounded effective limit:
`while attempt <= bound:` call `try_connect` (the oracle `tc` gives its
result per attempt number), break on success, otherwise sleep
`backoff attempt` seconds and retry with `attempt + 1`; when the guard
fails the `while`-`else` clause reports the current counter value.
`remaining = bound - attempt + 1` is the number of guarded iterations
left. -/
def connectLoop (tc : Nat → Bool) : Nat → Nat → ConnectRun
  | attempt, 0 => ⟨.exhausted attempt, [], []⟩
  | attempt, r + 1 =>
    if tc attempt then ⟨.success attempt, [attempt], []⟩
    else
      let rest := connectLoop tc (attempt + 1) r
      ⟨rest.outcome, attempt :: rest.attemptsTried, backoff attempt :: rest.sleeps⟩

/-- The retry loop started at `attempt = 1` (line 843) with effective limit
`bound`. The unlimited case (`max_attempts is None` after resolution) is a
possibly non-terminating loop and is outside the bounded model. -/
def connectRun (tc : Nat → Bool) (bound : Nat) : ConnectRun :=
  connectLoop tc 1 bound

/-! ### Transport session state -/

/-- A JSON value as found in outbound payload dictionaries. -/
inductive JVal where
  | str (s : String)
  | num (n : Int)
deriving DecidableEq

/-- Serialisation of one value, standing in for `json.JSONEncoder`. -/
def encodeJVal : JVal → String
  | .str s => "\"" ++ s ++ "\""
  | .num n => toString n

/-- Serialisation of the entries of a payload dictionary in insertion
order. -/
def encodeEntries : List (String × JVal) → String
  | [] => ""
  | [(k, v)] => "\"" ++ k ++ "\": " ++ encodeJVal v
  | (k, v) :: rest => "\"" ++ k ++ "\": " ++ encodeJVal v ++ ", " ++ encodeEntries rest

/-- `self._json_encoder.encode(payload)` (line 1057): serialise the payload
dictionary. -/
def encodeJson (d : List (String × JVal)) : String :=
  "\x7b" ++ encodeEntries d ++ "\x7d"

/-- State of one `AndesiteWebSocketBase` transport session. `webSocketClient`
is `none` for Python `None` and `some o` for a handle whose `open` property
is `o`. `wireLog` records every string actually written to the web socket,
in order (the observable send history, used to state ordering claims). -/
structure SessionState where
  headers : List (String × String)
  lastConnectionId : Option String
  maxConnectAttempts : Option Nat
  webSocketClient : Option Bool
  messageQueue : List String
  closed : Bool
  wireLog : List String
deriving DecidableEq

/-- Constructor `AndesiteWebSocketBase.__init__` (lines 767-794): `User-Id`
header, optional `Authorization` header, no connection id, empty queue, not
closed. -/
def mkSession (userId : Nat) (password : Option String)
    (maxConnectAttempts : Option Nat) : SessionState :=
  { headers :=
      match password with
      | none => [("User-Id", toString userId)]
      | some pw => [("User-Id", toString userId), ("Authorization", pw)]
    lastConnectionId := none
    maxConnectAttempts := maxConnectAttempts
    webSocketClient := none
    messageQueue := []
    closed := false
    wireLog := [] }

/-- Property `connected` (lines 800-803): a handle exists and is open. -/
def connected (s : SessionState) : Bool :=
  match s.webSocketClient with
  | some o => o
  | none => false

/-- Header preparation of `_connect` (lines 834-841): inject
`Andesite-Resume-Id` when a previous connection id is known, otherwise
delete any stale entry (`with suppress(KeyError): del ...`). -/
def prepareHeaders (s : SessionState) : List (String × String) :=
  match s.lastConnectionId with
  | some cid => alSet s.headers "Andesite-Resume-Id" cid
  | none => alDel s.headers "Andesite-Resume-Id"

/-- `_replay_message_queue` (lines 926-937): write every queued message to
the socket in FIFO order, then clear the queue. -/
def replayMessageQueue (s : SessionState) : SessionState :=
  { s with wireLog := s.wireLog ++ s.messageQueue, messageQueue := [] }

/-- The `ConnectionUpdate` arm of `_web_socket_reader` (lines 1004-1006):
record the received id as the last connection id for future resumes. -/
def readerHandleConnectionUpdate (s : SessionState) (cid : String) : SessionState :=
  { s with lastConnectionId := some cid }

/-- Result of one call of `_connect`: the session state after the call, the
exception surfaced to the caller (if any), and the retry-loop trace (absent
when the loop was never entered). -/
structure ConnectCallResult where
  state : SessionState
  err : Option PyErr
  run : Option ConnectRun
deriving DecidableEq

/-- `_connect` (lines 817-865) with resolved effective limit `bound`
(`resolveMaxAttempts` applied to the argument and the instance attribute):
raise `ValueError` when already connected; prepare the resume headers; run
the retry loop; on exhaustion set `closed := True` and raise
`ConnectionError` carrying the final counter value; on success store the
open handle, start the read loop, dispatch `WebSocketConnectEvent` and
replay the message queue. -/
def connectImpl (tc : Nat → Bool) (bound : Nat) (s : SessionState) : ConnectCallResult :=
  if connected s then
    ⟨s, some (.valueError "Already connected!"), none⟩
  else
    let s1 := { s with headers := prepareHeaders s }
    let run := connectRun tc bound
    match run.outcome with
    | .exhausted k =>
      ⟨{ s1 with closed := true }, some (.connectionError k), some run⟩
    | .success _ =>
      let s2 := { s1 with webSocketClient := some true }
      ⟨replayMessageQueue s2, none, some run⟩

/-- Outcome of one call of the public `connect` (lines 867-896). -/
inductive ConnectCallOutcome where
  | raised (e : PyErr)
  | noop
  | ran (r : ConnectCallResult)
deriving DecidableEq

/-- Public `connect` (lines 891-896): `ValueError` when the session is
closed; then, under the connect lock, a silent no-op when already
connected, otherwise `_connect`. -/
def sessionConnect (tc : Nat → Bool) (bound : Nat) (s : SessionState) : ConnectCallOutcome :=
  if s.closed then .raised (.valueError "Client is closed and cannot be reused.")
  else if connected s then .noop
  else .ran (connectImpl tc bound s)

/-- State resulting from a `connect` call (the no-op and raising branches
leave the state unchanged). -/
def connectOutcomeState (s : SessionState) : ConnectCallOutcome → SessionState
  | .raised _ => s
  | .noop => s
  | .ran r => r.state

/-- Error surfaced by a `connect` call, if any. -/
def connectOutcomeErr : ConnectCallOutcome → Option PyErr
  | .raised e => some e
  | .noop => none
  | .ran r => r.err

/-- Result of one call of `AndesiteWebSocketBase.send`: the state after the
call, the (mutated) payload object, the exception surfaced to the caller
(if any), and whether the queue-append / `connect()` lines were executed. -/
structure SendResult where
  state : SessionState
  payload : List (String × JVal)
  err : Option PyErr
  queued : Bool
  connectTriggered : Bool
deriving DecidableEq

/-- `send(guild_id, op, payload)` (lines 1033-1069): stamp
`payload.update(guildId=str(guild_id), op=op)` in place, dispatch
`RawMsgSendEvent`, encode; when a web socket handle exists try to write
(`writeRaisesClosed` tells whether that write raises `ConnectionClosed`,
which is swallowed by `pass`); when there is no handle or the write failed,
append the encoded message to the message queue and await `connect()`
(whose retry oracle and resolved bound are `tc` and `bound`; `send` passes
no `max_attempts`, so the instance default applies). -/
def sessionSend (tc : Nat → Bool) (bound : Nat) (writeRaisesClosed : Bool)
    (s : SessionState) (guildId : Nat) (op : String)
    (payload : List (String × JVal)) : SendResult :=
  let payload1 := alSet (alSet payload "guildId" (.str (toString guildId))) "op" (.str op)
  let data := encodeJson payload1
  let queueBranch : SendResult :=
    let s1 := { s with messageQueue := s.messageQueue ++ [data] }
    let c := sessionConnect tc bound s1
    ⟨connectOutcomeState s1 c, payload1, connectOutcomeErr c, true, true⟩
  match s.webSocketClient with
  | some _ =>
    if writeRaisesClosed then queueBranch
    else ⟨{ s with wireLog := s.wireLog ++ [data] }, payload1, none, false, false⟩
  | none => queueBranch

/-- Concrete session fixture: a handle that exists but is no longer open,
with one message already queued (the situation after a mid-send close). -/
def staleSession : SessionState :=
  { mkSession 1 none none with
      webSocketClient := some false
      messageQueue := ["Q"] }

/-! ### Guild-affinity pool (`WebSocketPoolBase`, pools.py)

Member clients are identified by a `ClientId`; their time-varying `closed`
flag is an oracle `closedOf` supplied per operation. The scoring function
(`ScoringData -> score`) is abstracted as `score client guildIds guildId`
into a linearly ordered score type: the pool, the region comparator and the
node region of `ScoringData` are fixed per call or derived from the client,
so they are bundled into the function. -/

abbrev ClientId := Nat

/-- State of one `WebSocketPoolBase`: the member set `_clients`, the
guild-to-client mapping `_guild_clients` and the client-to-guild-set
mapping `_client_guilds`. -/
structure PoolState where
  clients : List ClientId
  guildClients : List (Nat × ClientId)
  clientGuilds : List (ClientId × List Nat)
deriving DecidableEq

/-- A pool constructed with no clients (lines 458-474). -/
def emptyPool : PoolState := ⟨[], [], []⟩

/-- `add_client` (lines 516-537 plus the `ClientPool.add_client` guard,
lines 155-170): `ValueError` when the client is already a member; add it to
`_clients` and give it a fresh empty guild set. Event wiring and state
propagation are not modelled. -/
def add_client (ps : PoolState) (c : ClientId) : Except PyErr PoolState :=
  if c ∈ ps.clients then .error (.valueError "Client already in pool")
  else .ok
    { clients := ps.clients ++ [c]
      guildClients := ps.guildClients
      clientGuilds := alSet ps.clientGuilds c [] }

/-- The loop `for guild_id in guild_ids: del self._guild_clients[guild_id]`
(lines 560-561): each `del` raises `KeyError` when the guild is unmapped. -/
def delGuilds (d : List (Nat × ClientId)) : List Nat → Option (List (Nat × ClientId))
  | [] => some d
  | g :: rest =>
    match alGet d g with
    | none => none
    | some _ => delGuilds (alDel d g) rest

/-- `remove_client` (lines 539-569): `ValueError` when the client is not a
member; pop its guild set (`KeyError` when it has no entry) and delete each
of those guilds from `_guild_clients`. State reset and event unwiring are
not modelled. -/
def remove_client (ps : PoolState) (c : ClientId) : Except PyErr PoolState :=
  if c ∈ ps.clients then
    match alGet ps.clientGuilds c with
    | none => .error .keyError
    | some gids =>
      match delGuilds ps.guildClients gids with
      | none => .error .keyError
      | some gcs => .ok
        { clients := ps.clients.erase c
          guildClients := gcs
          clientGuilds := alDel ps.clientGuilds c }
  else .error (.valueError "Cannot remove, not in pool")

/-- `ClientPool._check_client` (lines 137-153): a closed client is removed
from the pool on sight and reported as absent. -/
def check_client (closedOf : ClientId → Bool) (ps : PoolState) (c : ClientId) :
    Except PyErr (Option ClientId × PoolState) :=
  if closedOf c then
    match remove_client ps c with
    | .error e => .error e
    | .ok ps1 => .ok (none, ps1)
  else .ok (some c, ps)

/-- `get_client` (lines 608-617): look the guild up, treating a closed
mapped client as absent (lazy cleanup through `_check_client`). -/
def get_client (closedOf : ClientId → Bool) (ps : PoolState) (g : Nat) :
    Except PyErr (Option ClientId × PoolState) :=
  match alGet ps.guildClients g with
  | none => .ok (none, ps)
  | some c => check_client closedOf ps c

/-- `get_guild_ids` (lines 704-718): the guild set assigned to a client, an
empty set when the client has no entry. -/
def get_guild_ids (ps : PoolState) (c : ClientId) : List Nat :=
  match alGet ps.clientGuilds c with
  | some gids => gids
  | none => []

/-- Winner accumulation loop of `find_best_client` (lines 658-666):
`best_score` starts as `None`; a strictly larger score resets the winner
list, an equal score appends, a smaller score is skipped. -/
def bestLoop {S : Type} [LinearOrder S] :
    Option S → List ClientId → List (ClientId × S) → List ClientId
  | _, acc, [] => acc
  | best, acc, (c, sc) :: rest =>
    match best with
    | some b =>
      if sc < b then bestLoop (some b) acc rest
      else if b < sc then bestLoop (some sc) [c] rest
      else bestLoop (some sc) (acc ++ [c]) rest
    | none => bestLoop (some sc) (acc ++ [c]) rest

/-- The `best_clients` list computed by `find_best_client` from the scored
candidates, in iteration order. -/
def bestClients {S : Type} [LinearOrder S] (scores : List (ClientId × S)) : List ClientId :=
  bestLoop none [] scores

/-- `random.choice(l)` with the uniformly drawn random index `r < l.length`
made explicit; the empty list raises `IndexError`, which `find_best_client`
turns into `None` (lines 668-671). -/
def randomChoice (l : List ClientId) (r : Nat) : Option ClientId :=
  l.get? (r % l.length)

/-- The scored candidate list built by `find_best_client` (lines 647-657):
one `ScoringData` per member client, in member iteration order, evaluated
by the scoring function. -/
def poolScores {S : Type} (score : ClientId → List Nat → Nat → S)
    (ps : PoolState) (g : Nat) : List (ClientId × S) :=
  ps.clients.map (fun c => (c, score c (get_guild_ids ps c) g))

/-- `find_best_client` (lines 631-671): score every member for the guild
and pick uniformly at random among the clients sharing the best score;
`None` when the pool has no members. -/
def find_best_client {S : Type} [LinearOrder S] (score : ClientId → List Nat → Nat → S)
    (ps : PoolState) (g : Nat) (r : Nat) : Option ClientId :=
  randomChoice (bestClients (poolScores score ps g)) r

/-- Python `set.add` on an insertion-ordered duplicate-free list. -/
def setAdd (l : List Nat) (g : Nat) : List Nat :=
  if g ∈ l then l else l ++ [g]

/-- `_assign_client` (lines 673-690): `self._guild_clients[guild_id] = client`
on a `WeakValueDictionary` — storing `None` raises `TypeError` because no
weak reference to `None` can be created — then add the guild to the
client's guild set, creating the set on `KeyError`. -/
def assign_client_impl (ps : PoolState) (copt : Option ClientId) (g : Nat) :
    Except PyErr PoolState :=
  match copt with
  | none => .error .typeError
  | some c =>
    let cgs :=
      match alGet ps.clientGuilds c with
      | some gids => alSet ps.clientGuilds c (setAdd gids g)
      | none => alSet ps.clientGuilds c (setAdd [] g)
    .ok { clients := ps.clients
          guildClients := alSet ps.guildClients g c
          clientGuilds := cgs }

/-- `assign_client` (lines 692-702): return the existing mapping when
`get_client` finds one, otherwise pick the best client and record the
mapping through `_assign_client`. -/
def assign_client {S : Type} [LinearOrder S] (closedOf : ClientId → Bool)
    (score : ClientId → List Nat → Nat → S) (r : Nat)
    (ps : PoolState) (g : Nat) : Except PyErr (Option ClientId × PoolState) := do
  let (copt, ps1) ← get_client closedOf ps g
  match copt with
  | some c => .ok (some c, ps1)
  | none =>
    let cbest := find_best_client score ps1 g r
    let ps2 ← assign_client_impl ps1 cbest g
    .ok (cbest, ps2)

/-- `WebSocketPoolBase.send` (lines 720-727): assign a client for the
guild, raise `PoolEmptyError` when no client was assigned (`if not client`;
the client classes define no `__bool__`, so this is a `None` check),
otherwise delegate `send(guild_id, op, payload)` to it. The model returns
the delegation target together with its arguments; the member clients'
session states are not part of the pool state. -/
def pool_send {S : Type} [LinearOrder S] (closedOf : ClientId → Bool)
    (score : ClientId → List Nat → Nat → S) (r : Nat)
    (ps : PoolState) (g : Nat) (op : String) (payload : List (String × JVal)) :
    Except PyErr ((ClientId × Nat × String × List (String × JVal)) × PoolState) := do
  let (copt, ps1) ← assign_client closedOf score r ps g
  match copt with
  | none => .error .poolEmpty
  | some c => .ok ((c, g, op, payload), ps1)

/-- Running maximum of the scores of a candidate list, seeded with `b` (the
value `best_score` converges to over the loop of lines 658-666). -/
def runMax {S : Type} [LinearOrder S] (b : S) : List (ClientId × S) → S
  | [] => b
  | (_, sc) :: rest => runMax (max b sc) rest

/-- Score a single member client for a guild, exactly as `find_best_client`
does when building its `ScoringData`. -/
def scoreAt {S : Type} (score : ClientId → List Nat → Nat → S) (ps : PoolState)
    (g : Nat) (c : ClientId) : S :=
  score c (get_guild_ids ps c) g

/-- Concrete pool fixture: one member client, no guild assigned. -/
def poolA : PoolState := ⟨[1], [], [(1, [])]⟩

/-- Concrete pool fixture: one member client with guild 5 assigned to it. -/
def poolB : PoolState := ⟨[1], [(5, 1)], [(1, [5])]⟩

/-- Concrete pool fixture: three members, no guild assigned. -/
def poolTriple : PoolState := ⟨[1, 2, 3], [], [(1, []), (2, []), (3, [])]⟩

/-- Pool states reachable from a freshly constructed pool through the
mutating pool operations, each step with its own closed-flag oracle,
scoring function and random draw. -/
inductive Reachable : PoolState → Prop
  | empty : Reachable emptyPool
  | add (ps : PoolState) (c : ClientId) (ps1 : PoolState) :
      Reachable ps → add_client ps c = .ok ps1 → Reachable ps1
  | remove (ps : PoolState) (c : ClientId) (ps1 : PoolState) :
      Reachable ps → remove_client ps c = .ok ps1 → Reachable ps1
  | get (ps : PoolState) (closedOf : ClientId → Bool) (g : Nat)
      (copt : Option ClientId) (ps1 : PoolState) :
      Reachable ps → get_client closedOf ps g = .ok (copt, ps1) → Reachable ps1
  | assign (S : Type) (inst : LinearOrder S) (ps : PoolState)
      (closedOf : ClientId → Bool) (score : ClientId → List Nat → Nat → S)
      (r : Nat) (g : Nat) (copt : Option ClientId) (ps1 : PoolState) :
      Reachable ps → assign_client closedOf score r ps g = .ok (copt, ps1) →
      Reachable ps1

/-- Structural invariant of the pool maps: duplicate-free member list and
key lists, every guild mapping points at a member and is mirrored in that
member's guild set, every member has a guild-set entry, and every guild-set
entry is sound for the guild mapping. -/
structure PoolInv (ps : PoolState) : Prop where
  ndClients : ps.clients.Nodup
  ndGC : (ps.guildClients.map Prod.fst).Nodup
  ndCG : (ps.clientGuilds.map Prod.fst).Nodup
  gcMem : ∀ g c, alGet ps.guildClients g = some c → c ∈ ps.clients
  gcInCG : ∀ g c, alGet ps.guildClients g = some c →
    ∃ gids, alGet ps.clientGuilds c = some gids ∧ g ∈ gids
  cgKey : ∀ c, c ∈ ps.clients → (alGet ps.clientGuilds c).isSome
  cgMem : ∀ c gids, alGet ps.clientGuilds c = some gids → c ∈ ps.clients
  cgSound : ∀ c gids, alGet ps.clientGuilds c = some gids →
    ∀ g, g ∈ gids → alGet ps.guildClients g = some c
  cgNodup : ∀ c gids, alGet ps.clientGuilds c = some gids → gids.Nodup

/-! ### Lemmas about association-list dictionaries -/

theorem alGet_alSet_self {α β : Type} [DecidableEq α] (d : List (α × β)) (k : α) (v : β) :
    alGet (alSet d k v) k = some v := by
  induction d with
  | nil => simp [alSet, alGet]
  | cons hd tl ih =>
    obtain ⟨k0, v0⟩ := hd
    by_cases h : k0 = k <;> simp [alSet, alGet, h, ih]

theorem alGet_alSet_ne {α β : Type} [DecidableEq α] (d : List (α × β)) (k k2 : α) (v : β)
    (h : k2 ≠ k) : alGet (alSet d k v) k2 = alGet d k2 := by
  induction d with
  | nil =>
    simp [alSet, alGet, Ne.symm h]
  | cons hd tl ih =>
    obtain ⟨k0, v0⟩ := hd
    by_cases h0 : k0 = k
    · subst h0
      simp [alSet, alGet, Ne.symm h]
    · simp [alSet, alGet, h0, ih]

theorem alGet_alDel_self {α β : Type} [DecidableEq α] (d : List (α × β)) (k : α) :
    alGet (alDel d k) k = none := by
  induction d with
  | nil => simp [alDel, alGet]
  | cons hd tl ih =>
    obtain ⟨k0, v0⟩ := hd
    by_cases h : k0 = k <;> simp [alDel, alGet, h, ih]

theorem alGet_alDel_ne {α β : Type} [DecidableEq α] (d : List (α × β)) (k k2 : α)
    (h : k2 ≠ k) : alGet (alDel d k) k2 = alGet d k2 := by
  induction d with
  | nil => simp [alDel]
  | cons hd tl ih =>
    obtain ⟨k0, v0⟩ := hd
    by_cases h0 : k0 = k
    · subst h0
      simp [alDel, alGet, Ne.symm h, ih]
    · simp [alDel, alGet, h0, ih]

/-! ### Lemmas about the connect retry loop -/

theorem connectLoop_tried_le (tc : Nat → Bool) (a r : Nat) :
    (connectLoop tc a r).attemptsTried.length ≤ r := by
  induction r generalizing a with
  | zero => simp [connectLoop]
  | succ n ih =>
    cases htc : tc a
    · simpa [connectLoop, htc] using ih (a + 1)
    · simp [connectLoop, htc]

theorem connectLoop_tried_range (tc : Nat → Bool) (a r : Nat) :
    (connectLoop tc a r).attemptsTried
      = List.range' a (connectLoop tc a r).attemptsTried.length := by
  induction r generalizing a with
  | zero => simp [connectLoop]
  | succ n ih =>
    cases htc : tc a
    · simpa [connectLoop, htc, List.range'_succ] using ih (a + 1)
    · simp [connectLoop, htc, List.range'_succ]

theorem connectLoop_sleeps_get (tc : Nat → Bool) (a r i : Nat)
    (h : i < (connectLoop tc a r).sleeps.length) :
    (connectLoop tc a r).sleeps.get? i = some (backoff (a + i)) := by
  induction r generalizing a i with
  | zero => simp [connectLoop] at h
  | succ n ih =>
    cases htc : tc a
    · simp only [connectLoop, htc, Bool.false_eq_true, if_false] at h ⊢
      cases i with
      | zero => simp
      | succ j =>
        simp only [List.length_cons, Nat.add_lt_add_iff_right] at h
        have hj := ih (a + 1) j (by simpa using h)
        simpa [Nat.add_assoc, Nat.add_comm 1 j] using hj
    · simp [connectLoop, htc] at h

theorem connectLoop_all_fail (tc : Nat → Bool) (a r : Nat)
    (h : ∀ k, a ≤ k → k < a + r → tc k = false) :
    connectLoop tc a r
      = ⟨.exhausted (a + r), List.range' a r, (List.range' a r).map backoff⟩ := by
  induction r generalizing a with
  | zero => simp [connectLoop]
  | succ n ih =>
    have ha : tc a = false := h a le_rfl (by omega)
    have hrec := ih (a + 1) (fun k hk1 hk2 => h k (by omega) (by omega))
    simp only [connectLoop, ha, Bool.false_eq_true, if_false, hrec, List.range'_succ,
      List.map_cons]
    have : a + 1 + n = a + (n + 1) := by omega
    simp [this]

/-! ### Claim theorems: transport session -/

/-- C1, counterexample: with effective limit `N = 1` and every attempt
failing, exactly one connection attempt is performed but the
`ConnectionError` raised by `_connect` carries the counter value `2`, not
the attempt count `1` the claim states. -/
theorem connect_exhaustion_count_cex :
    (connectImpl (fun _ => false) 1 (mkSession 1 none (some 1))).err
        = some (.connectionError 2) ∧
    ((connectImpl (fun _ => false) 1 (mkSession 1 none (some 1))).run.map
        (fun run => run.attemptsTried.length)) = some 1 ∧
    resolveMaxAttempts none (some 1) = some 1 ∧
    (2 : Nat) ≠ 1 := by
  refine ⟨rfl, rfl, rfl, by omega⟩

/-- C1 (amended): for an effective attempt limit `N ≥ 1` (the `max_attempts`
argument resolved against the instance default), `_connect` performs at most
`N` attempts numbered consecutively from 1, sleeps `⌊k^1.5⌋` seconds after
failed attempt `k`, and when all `N` attempts fail it sets `closed := true`
and raises a `ConnectionError` carrying `N + 1` — the final value of the
attempt counter, one more than the number of attempts performed. -/
theorem connect_retry_loop_spec (tc : Nat → Bool) (argA instA : Option Nat) (N : Nat)
    (s : SessionState) (run : ConnectRun)
    (hres : resolveMaxAttempts argA instA = some N) (hN : 1 ≤ N)
    (hnc : connected s = false)
    (hrun : (connectImpl tc N s).run = some run) :
    run.attemptsTried.length ≤ N ∧
    run.attemptsTried = List.range' 1 run.attemptsTried.length ∧
    (∀ i, i < run.sleeps.length → run.sleeps.get? i = some (backoff (i + 1))) ∧
    ((∀ k, 1 ≤ k → k ≤ N → tc k = false) →
      (connectImpl tc N s).state.closed = true ∧
      (connectImpl tc N s).err = some (.connectionError (N + 1)) ∧
      run.attemptsTried.length = N) := by
  have hrun2 : run = connectRun tc N := by
    simp only [connectImpl, hnc, Bool.false_eq_true, if_false] at hrun
    rcases hout : (connectRun tc N).outcome with k | k <;>
      simpa [hout] using hrun.symm
  subst hrun2
  refine ⟨connectLoop_tried_le tc 1 N, connectLoop_tried_range tc 1 N, ?_, ?_⟩
  · intro i hi
    have := connectLoop_sleeps_get tc 1 N i hi
    simpa [Nat.add_comm 1 i] using this
  · intro hfail
    have hloop := connectLoop_all_fail tc 1 N (fun k hk1 hk2 => hfail k hk1 (by omega))
    have houtcome : (connectRun tc N).outcome = .exhausted (N + 1) := by
      rw [connectRun, hloop]
      simp [Nat.add_comm 1 N]
    constructor
    · simp [connectImpl, hnc, houtcome]
    constructor
    · simp [connectImpl, hnc, houtcome]
    · rw [connectRun, hloop]; simp

/-- C1 amended, witness: with `max_attempts = 2` and every attempt failing,
the hypotheses hold and the amended conclusion follows at that input. -/
theorem connect_retry_loop_spec_witness :
    (resolveMaxAttempts (some 2) none = some 2 ∧ 1 ≤ 2 ∧
      connected (mkSession 1 none none) = false ∧
      (connectImpl (fun _ => false) 2 (mkSession 1 none none)).run
        = some (connectRun (fun _ => false) 2)) ∧
    ((connectRun (fun _ => false) 2).attemptsTried.length ≤ 2 ∧
      (connectRun (fun _ => false) 2).attemptsTried
        = List.range' 1 (connectRun (fun _ => false) 2).attemptsTried.length ∧
      (∀ i, i < (connectRun (fun _ => false) 2).sleeps.length →
        (connectRun (fun _ => false) 2).sleeps.get? i = some (backoff (i + 1))) ∧
      ((∀ k, 1 ≤ k → k ≤ 2 → (fun (_ : Nat) => false) k = false) →
        (connectImpl (fun _ => false) 2 (mkSession 1 none none)).state.closed = true ∧
        (connectImpl (fun _ => false) 2 (mkSession 1 none none)).err
          = some (.connectionError (2 + 1)) ∧
        (connectRun (fun _ => false) 2).attemptsTried.length = 2)) :=
  ⟨⟨rfl, by omega, rfl, rfl⟩,
    connect_retry_loop_spec (fun _ => false) (some 2) none 2 (mkSession 1 none none)
      (connectRun (fun _ => false) 2) rfl (by omega) rfl rfl⟩

/-- C2: messages queued while the session is disconnected are written in
exactly FIFO order upon the next successful connect, before any message
sent after the reconnection, and the queue is empty afterwards. -/
theorem queue_fifo_replay (tc tc2 : Nat → Bool) (bound bound2 a : Nat)
    (s : SessionState) (gid : Nat) (op : String) (payload : List (String × JVal))
    (hnc : connected s = false)
    (hsucc : (connectRun tc bound).outcome = .success a) :
    (connectImpl tc bound s).err = none ∧
    (connectImpl tc bound s).state.wireLog = s.wireLog ++ s.messageQueue ∧
    (connectImpl tc bound s).state.messageQueue = [] ∧
    (sessionSend tc2 bound2 false (connectImpl tc bound s).state gid op
        payload).state.wireLog
      = s.wireLog ++ s.messageQueue ++
        [encodeJson (alSet (alSet payload "guildId" (.str (toString gid))) "op"
          (.str op))] := by
  have hstate : connectImpl tc bound s
      = ConnectCallResult.mk
          (replayMessageQueue
            { s with
                headers := prepareHeaders s
                webSocketClient := some true })
          none (some (connectRun tc bound)) := by
    simp [connectImpl, hnc, hsucc]
  rw [hstate]
  refine ⟨rfl, rfl, rfl, ?_⟩
  simp [sessionSend, replayMessageQueue]

/-- C2, witness: a disconnected session holding queued messages A, B, C and
a first attempt that succeeds. -/
theorem queue_fifo_replay_witness :
    (connected { mkSession 1 none none with messageQueue := ["A", "B", "C"] } = false ∧
      (connectRun (fun _ => true) 1).outcome = .success 1) ∧
    ((connectImpl (fun _ => true) 1
        { mkSession 1 none none with messageQueue := ["A", "B", "C"] }).err = none ∧
      (connectImpl (fun _ => true) 1
        { mkSession 1 none none with messageQueue := ["A", "B", "C"] }).state.wireLog
        = [] ++ ["A", "B", "C"] ∧
      (connectImpl (fun _ => true) 1
        { mkSession 1 none none with messageQueue := ["A", "B", "C"] }).state.messageQueue
        = [] ∧
      (sessionSend (fun _ => true) 1 false
          (connectImpl (fun _ => true) 1
            { mkSession 1 none none with messageQueue := ["A", "B", "C"] }).state
          9 "play" []).state.wireLog
        = [] ++ ["A", "B", "C"] ++
          [encodeJson (alSet (alSet [] "guildId" (.str (toString 9))) "op"
            (.str "play"))]) :=
  ⟨⟨rfl, rfl⟩,
    queue_fifo_replay (fun _ => true) (fun _ => true) 1 1 1
      { mkSession 1 none none with messageQueue := ["A", "B", "C"] } 9 "play" []
      rfl rfl⟩

/-- C4: the handshake headers prepared by `_connect` hold
`Andesite-Resume-Id` exactly when a last connection id is known, mapped to
that id, and an id captured from a received connection update is attached
on the next connect; with no id there is no such header entry. -/
theorem resume_header_roundtrip (s : SessionState) (cid : String) :
    alGet (prepareHeaders s) "Andesite-Resume-Id" = s.lastConnectionId ∧
    alGet (prepareHeaders (readerHandleConnectionUpdate s cid)) "Andesite-Resume-Id"
      = some cid := by
  constructor
  · cases h : s.lastConnectionId with
    | none => simp [prepareHeaders, h, alGet_alDel_self]
    | some x => simp [prepareHeaders, h, alGet_alSet_self]
  · simp [prepareHeaders, readerHandleConnectionUpdate, alGet_alSet_self]

/-- Whatever a `connect()` call raises, it is never the `ConnectionClosed`
exception: its only errors are the closed-session `ValueError` and the
exhaustion `ConnectionError`. -/
theorem sessionConnect_err_ne_closed (tc : Nat → Bool) (bound : Nat)
    (s : SessionState) :
    connectOutcomeErr (sessionConnect tc bound s) ≠ some PyErr.connectionClosed := by
  unfold sessionConnect connectImpl
  rcases hcl : s.closed with _ | _
  · rcases hc : connected s with _ | _
    · rcases hout : (connectRun tc bound).outcome with a | k <;>
        simp [hcl, hc, hout, connectOutcomeErr]
    · simp [hcl, hc, connectOutcomeErr]
  · simp [hcl, connectOutcomeErr]

/-- C7, counterexample: the connection is found closed while `send` writes
(a handle exists but is no longer open), yet the call does not return
normally — the triggered `await self.connect()` exhausts its single
attempt, and its `ConnectionError` surfaces to `send`'s caller. -/
theorem send_closed_recovery_cex :
    staleSession.webSocketClient = some false ∧
    staleSession.closed = false ∧
    (sessionSend (fun _ => false) 1 true staleSession 7 "pause" []).err
      = some (.connectionError 2) ∧
    (sessionSend (fun _ => false) 1 true staleSession 7 "pause" []).err ≠ none := by
  have he : (sessionSend (fun _ => false) 1 true staleSession 7 "pause" []).err
      = some (.connectionError 2) := rfl
  exact ⟨rfl, rfl, he, by rw [he]; simp⟩

/-- C7 (amended): when the socket handle exists and the connection is found
closed while `send` writes, the `ConnectionClosed` raised by the write is
swallowed — it is never the exception surfaced to `send`'s caller — the
encoded message is appended to the message queue and `connect()` is
triggered; when the triggered reconnect succeeds, `send` returns normally
with the message delivered from the queue, but when the reconnect exhausts
its attempts, the resulting `ConnectionError` propagates to the caller. -/
theorem send_closed_recovery (tc : Nat → Bool) (bound : Nat) (s : SessionState)
    (gid : Nat) (op : String) (payload : List (String × JVal)) (b : Bool)
    (hws : s.webSocketClient = some b) :
    (sessionSend tc bound true s gid op payload).queued = true ∧
    (sessionSend tc bound true s gid op payload).connectTriggered = true ∧
    (sessionSend tc bound true s gid op payload).err
      ≠ some PyErr.connectionClosed ∧
    (s.closed = false → b = false → 1 ≤ bound → tc 1 = true →
      (sessionSend tc bound true s gid op payload).err = none ∧
      (sessionSend tc bound true s gid op payload).state.wireLog
        = s.wireLog ++ s.messageQueue ++
          [encodeJson (alSet (alSet payload "guildId" (.str (toString gid))) "op"
            (.str op))] ∧
      (sessionSend tc bound true s gid op payload).state.messageQueue = []) := by
  refine ⟨by simp [sessionSend, hws], by simp [sessionSend, hws], ?_, ?_⟩
  · simp only [sessionSend, hws]
    exact sessionConnect_err_ne_closed tc bound _
  · intro hcl hb0 hbnd h1
    subst hb0
    obtain ⟨b2, hbound⟩ : ∃ b2, bound = b2 + 1 := ⟨bound - 1, by omega⟩
    subst hbound
    have hrun : (connectRun tc (b2 + 1)).outcome = .success 1 := by
      simp [connectRun, connectLoop, h1]
    simp [sessionSend, hws, sessionConnect, hcl, connected, connectImpl, hrun,
      replayMessageQueue, connectOutcomeState, connectOutcomeErr]

/-- C7 amended, witness: a session whose handle is present but no longer
open, with one queued message; the write failure is swallowed and the
first-attempt reconnect delivers the message. -/
theorem send_closed_recovery_witness :
    (staleSession.webSocketClient = some false) ∧
    ((sessionSend (fun _ => true) 1 true staleSession 7 "pause" []).queued = true ∧
      (sessionSend (fun _ => true) 1 true staleSession 7 "pause"
        []).connectTriggered = true ∧
      (sessionSend (fun _ => true) 1 true staleSession 7 "pause" []).err
        ≠ some PyErr.connectionClosed ∧
      (staleSession.closed = false → false = false → 1 ≤ 1 →
        (fun (_ : Nat) => true) 1 = true →
        (sessionSend (fun _ => true) 1 true staleSession 7 "pause" []).err = none ∧
        (sessionSend (fun _ => true) 1 true staleSession 7 "pause"
          []).state.wireLog
          = staleSession.wireLog ++ staleSession.messageQueue ++
            [encodeJson (alSet (alSet [] "guildId" (.str (toString 7))) "op"
              (.str "pause"))] ∧
        (sessionSend (fun _ => true) 1 true staleSession 7 "pause"
          []).state.messageQueue = [])) :=
  ⟨rfl, send_closed_recovery (fun _ => true) 1 staleSession 7 "pause" [] false rfl⟩

/-- C8, counterexample: on a session whose connection is open (and which is
not closed), the public `connect()` returns silently as a no-op and raises
nothing, instead of failing fast with an "already connected" error. -/
theorem connect_already_connected_cex :
    sessionConnect (fun _ => true) 1
        { mkSession 1 none none with webSocketClient := some true }
      = .noop ∧
    connectOutcomeErr (sessionConnect (fun _ => true) 1
        { mkSession 1 none none with webSocketClient := some true }) = none ∧
    connected { mkSession 1 none none with webSocketClient := some true } = true ∧
    ({ mkSession 1 none none with webSocketClient := some true } :
        SessionState).closed = false :=
  ⟨rfl, rfl, rfl, rfl⟩

/-- C8 (amended): when the session is not closed and the underlying
connection is open, the public `connect()` returns silently without
performing any action (its documented no-op behaviour); only the internal
`_connect` raises `ValueError("Already connected!")` when invoked while
connected, and it leaves the state unchanged. -/
theorem connect_when_open_noop (tc : Nat → Bool) (bound : Nat) (s : SessionState)
    (hcl : s.closed = false) (hc : connected s = true) :
    sessionConnect tc bound s = .noop ∧
    (connectImpl tc bound s).err = some (.valueError "Already connected!") ∧
    (connectImpl tc bound s).state = s := by
  refine ⟨by simp [sessionConnect, hcl, hc], ?_, ?_⟩ <;> simp [connectImpl, hc]

/-- C8 amended, witness: an open, unclosed session. -/
theorem connect_when_open_noop_witness :
    (({ mkSession 1 none none with webSocketClient := some true } :
        SessionState).closed = false ∧
      connected { mkSession 1 none none with webSocketClient := some true } = true) ∧
    (sessionConnect (fun _ => false) 3
        { mkSession 1 none none with webSocketClient := some true } = .noop ∧
      (connectImpl (fun _ => false) 3
          { mkSession 1 none none with webSocketClient := some true }).err
        = some (.valueError "Already connected!") ∧
      (connectImpl (fun _ => false) 3
          { mkSession 1 none none with webSocketClient := some true }).state
        = { mkSession 1 none none with webSocketClient := some true }) :=
  ⟨⟨rfl, rfl⟩,
    connect_when_open_noop (fun _ => false) 3
      { mkSession 1 none none with webSocketClient := some true } rfl rfl⟩

/-- C10: `send` stamps the caller's payload dictionary in place —
afterwards `payload["guildId"]` is `str(guild_id)` and `payload["op"]` is
`op`, while every other key keeps its value — whether the message is sent
over the socket or queued. -/
theorem send_stamps_payload (tc : Nat → Bool) (bound : Nat) (wrc : Bool)
    (s : SessionState) (gid : Nat) (op : String) (payload : List (String × JVal))
    (k : String) (hk1 : k ≠ "guildId") (hk2 : k ≠ "op") :
    alGet (sessionSend tc bound wrc s gid op payload).payload "guildId"
      = some (.str (toString gid)) ∧
    alGet (sessionSend tc bound wrc s gid op payload).payload "op" = some (.str op) ∧
    alGet (sessionSend tc bound wrc s gid op payload).payload k = alGet payload k := by
  have hpl : (sessionSend tc bound wrc s gid op payload).payload
      = alSet (alSet payload "guildId" (.str (toString gid))) "op" (.str op) := by
    rcases hws : s.webSocketClient with _ | o
    · simp [sessionSend, hws]
    · cases wrc <;> simp [sessionSend, hws]
  rw [hpl]
  refine ⟨?_, alGet_alSet_self _ _ _, ?_⟩
  · rw [alGet_alSet_ne _ _ _ _ (by decide), alGet_alSet_self]
  · rw [alGet_alSet_ne _ _ _ _ hk2, alGet_alSet_ne _ _ _ _ hk1]

/-- C10, witness: a payload with an unrelated `track` key, stamped by a
queued send (no socket handle). -/
theorem send_stamps_payload_witness :
    ("track" ≠ "guildId" ∧ "track" ≠ "op") ∧
    (alGet (sessionSend (fun _ => true) 1 false (mkSession 1 none none) 5 "play"
        [("track", .str "xyz")]).payload "guildId" = some (.str (toString 5)) ∧
      alGet (sessionSend (fun _ => true) 1 false (mkSession 1 none none) 5 "play"
        [("track", .str "xyz")]).payload "op" = some (.str "play") ∧
      alGet (sessionSend (fun _ => true) 1 false (mkSession 1 none none) 5 "play"
        [("track", .str "xyz")]).payload "track"
        = alGet [("track", JVal.str "xyz")] "track") :=
  ⟨⟨by decide, by decide⟩,
    send_stamps_payload (fun _ => true) 1 false (mkSession 1 none none) 5 "play"
      [("track", .str "xyz")] "track" (by decide) (by decide)⟩

/-! ### Additional association-list lemmas for the pool maps -/

theorem alSet_keys_subset {α β : Type} [DecidableEq α] (d : List (α × β)) (k x : α)
    (v : β) (h : x ∈ (alSet d k v).map Prod.fst) : x ∈ d.map Prod.fst ∨ x = k := by
  induction d with
  | nil => simpa [alSet] using h
  | cons hd tl ih =>
    obtain ⟨k0, v0⟩ := hd
    by_cases h0 : k0 = k
    · subst h0
      simp only [alSet, if_pos rfl, List.map_cons] at h
      simp only [List.map_cons]
      exact Or.inl h
    · simp only [alSet, h0, if_false, List.map_cons, List.mem_cons] at h ⊢
      rcases h with h | h
      · exact Or.inl (Or.inl h)
      · rcases ih h with h2 | h2
        · exact Or.inl (Or.inr h2)
        · exact Or.inr h2

theorem nd_alSet {α β : Type} [DecidableEq α] (d : List (α × β)) (k : α) (v : β)
    (h : (d.map Prod.fst).Nodup) : ((alSet d k v).map Prod.fst).Nodup := by
  induction d with
  | nil => simp [alSet]
  | cons hd tl ih =>
    obtain ⟨k0, v0⟩ := hd
    simp only [List.map_cons, List.nodup_cons] at h
    by_cases h0 : k0 = k
    · subst h0
      simpa [alSet] using h
    · simp only [alSet, h0, if_false, List.map_cons, List.nodup_cons]
      refine ⟨fun hmem => ?_, ih h.2⟩
      rcases alSet_keys_subset tl k k0 v hmem with h2 | h2
      · exact h.1 h2
      · exact h0 h2

theorem alDel_keys_subset {α β : Type} [DecidableEq α] (d : List (α × β)) (k x : α)
    (h : x ∈ (alDel d k).map Prod.fst) : x ∈ d.map Prod.fst := by
  induction d with
  | nil => simpa [alDel] using h
  | cons hd tl ih =>
    obtain ⟨k0, v0⟩ := hd
    by_cases h0 : k0 = k
    · subst h0
      simp only [alDel, if_pos rfl] at h
      exact List.mem_cons_of_mem _ (ih h)
    · simp only [alDel, h0, if_false, List.map_cons, List.mem_cons] at h ⊢
      rcases h with h | h
      · exact Or.inl h
      · exact Or.inr (ih h)

theorem nd_alDel {α β : Type} [DecidableEq α] (d : List (α × β)) (k : α)
    (h : (d.map Prod.fst).Nodup) : ((alDel d k).map Prod.fst).Nodup := by
  induction d with
  | nil => simp [alDel]
  | cons hd tl ih =>
    obtain ⟨k0, v0⟩ := hd
    simp only [List.map_cons, List.nodup_cons] at h
    by_cases h0 : k0 = k
    · subst h0
      simp only [alDel, if_pos rfl]
      exact ih h.2
    · simp only [alDel, h0, if_false, List.map_cons, List.nodup_cons]
      exact ⟨fun hmem => h.1 (alDel_keys_subset tl k k0 hmem), ih h.2⟩

theorem alGet_isSome_of_mem_keys {α β : Type} [DecidableEq α] (d : List (α × β)) (k : α)
    (h : k ∈ d.map Prod.fst) : (alGet d k).isSome := by
  induction d with
  | nil => simp at h
  | cons hd tl ih =>
    obtain ⟨k0, v0⟩ := hd
    by_cases h0 : k0 = k
    · simp [alGet, h0]
    · simp only [List.map_cons, List.mem_cons] at h
      rcases h with h | h
      · exact absurd h.symm h0
      · simpa [alGet, h0] using ih h

theorem mem_keys_of_alGet_some {α β : Type} [DecidableEq α] (d : List (α × β)) (k : α)
    (v : β) (h : alGet d k = some v) : k ∈ d.map Prod.fst := by
  induction d with
  | nil => simp [alGet] at h
  | cons hd tl ih =>
    obtain ⟨k0, v0⟩ := hd
    by_cases h0 : k0 = k
    · simp [h0]
    · simp only [alGet, h0, if_false] at h
      exact List.mem_cons_of_mem _ (ih h)

/-! ### Lemmas about the deletion loop of `remove_client` -/

theorem delGuilds_get (gids : List Nat) (d d2 : List (Nat × ClientId)) (g : Nat)
    (h : delGuilds d gids = some d2) :
    alGet d2 g = if g ∈ gids then none else alGet d g := by
  induction gids generalizing d with
  | nil =>
    simp only [delGuilds, Option.some.injEq] at h
    subst h
    simp
  | cons g0 rest ih =>
    simp only [delGuilds] at h
    rcases hg0 : alGet d g0 with _ | c0
    · rw [hg0] at h; exact absurd h (by simp)
    · rw [hg0] at h
      have hrec := ih (alDel d g0) h
      by_cases hmem : g ∈ g0 :: rest
      · simp only [hmem, if_true]
        rcases List.mem_cons.mp hmem with hgg | hgr
        · subst hgg
          by_cases hgr2 : g ∈ rest
          · simpa [hgr2] using hrec
          · rw [hrec]
            simp [hgr2, alGet_alDel_self]
        · simpa [hgr] using hrec
      · have hne : g ≠ g0 := fun hh => hmem (by simp [hh])
        have hnr : g ∉ rest := fun hh => hmem (List.mem_cons_of_mem _ hh)
        rw [hrec]
        simp [hnr, hmem, alGet_alDel_ne _ _ _ hne]

theorem delGuilds_isSome (gids : List Nat) (d : List (Nat × ClientId)) (c : ClientId)
    (hnd : gids.Nodup) (h : ∀ g ∈ gids, alGet d g = some c) :
    (delGuilds d gids).isSome := by
  induction gids generalizing d with
  | nil => simp [delGuilds]
  | cons g0 rest ih =>
    simp only [List.nodup_cons] at hnd
    have hg0 : alGet d g0 = some c := h g0 (by simp)
    simp only [delGuilds, hg0]
    refine ih (alDel d g0) hnd.2 (fun g hg => ?_)
    have hne : g ≠ g0 := fun hh => hnd.1 (hh ▸ hg)
    rw [alGet_alDel_ne _ _ _ hne]
    exact h g (List.mem_cons_of_mem _ hg)

theorem delGuilds_keys_nodup (gids : List Nat) (d d2 : List (Nat × ClientId))
    (hnd : (d.map Prod.fst).Nodup) (h : delGuilds d gids = some d2) :
    (d2.map Prod.fst).Nodup := by
  induction gids generalizing d with
  | nil =>
    simp only [delGuilds, Option.some.injEq] at h
    subst h; exact hnd
  | cons g0 rest ih =>
    simp only [delGuilds] at h
    rcases hg0 : alGet d g0 with _ | c0
    · rw [hg0] at h; exact absurd h (by simp)
    · rw [hg0] at h
      exact ih (alDel d g0) (nd_alDel d g0 hnd) h

/-! ### Claim theorems: pool send on an empty pool (C3) -/

/-- C3: evaluation of `pool_send` at the failing input. On a pool with zero
member clients, `send(guild_id=42, op="play", payload={})` raises a
`TypeError` — `assign_client` passes the `None` returned by
`find_best_client` straight into `_assign_client`, whose
`self._guild_clients[guild_id] = client` cannot create a weak reference to
`None` — and the `PoolEmptyError` guard inside `send` is never reached. -/
theorem pool_send_empty_pool_type_error :
    pool_send (S := Nat) (fun _ => false) (fun _ _ _ => 0) 0 emptyPool 42 "play" []
      = .error .typeError ∧
    pool_send (S := Nat) (fun _ => false) (fun _ _ _ => 0) 0 emptyPool 42 "play" []
      ≠ .error .poolEmpty := by
  have h1 : pool_send (S := Nat) (fun _ => false) (fun _ _ _ => 0) 0 emptyPool 42
      "play" [] = .error .typeError := rfl
  refine ⟨h1, ?_⟩
  rw [h1]
  simp

/-! ### Claim theorems: idempotent assignment (C9) -/

/-- Shape of a successful `get_client` hit: the guild is mapped and the
mapped client is not closed, and the state is untouched. -/
theorem get_client_some (closedOf : ClientId → Bool) (ps : PoolState) (g : Nat)
    (c : ClientId) (ps1 : PoolState)
    (h : get_client closedOf ps g = .ok (some c, ps1)) :
    alGet ps.guildClients g = some c ∧ closedOf c = false ∧ ps1 = ps := by
  rcases hg : alGet ps.guildClients g with _ | c0
  · rw [get_client, hg] at h
    simp at h
  · have hstep : get_client closedOf ps g = check_client closedOf ps c0 := by
      rw [get_client, hg]
    rw [hstep] at h
    unfold check_client at h
    rcases hcl : closedOf c0 with _ | _
    · rw [hcl] at h
      simp only [Bool.false_eq_true, if_false, Except.ok.injEq, Prod.mk.injEq,
        Option.some.injEq] at h
      obtain ⟨hcc, hpp⟩ := h
      subst hcc
      exact ⟨rfl, hcl, hpp.symm⟩
    · rw [hcl] at h
      simp only [if_true] at h
      rcases hrm : remove_client ps c0 with e | ps2 <;> rw [hrm] at h <;>
        simp at h

/-- Reduction of `assign_client` when `get_client` raised. -/
theorem assign_client_of_get_error {S : Type} [LinearOrder S] (closedOf : ClientId → Bool)
    (score : ClientId → List Nat → Nat → S) (r : Nat) (ps : PoolState) (g : Nat)
    (e : PyErr) (hget : get_client closedOf ps g = .error e) :
    assign_client closedOf score r ps g = .error e := by
  unfold assign_client
  rw [hget]
  rfl

/-- Reduction of `assign_client` when `get_client` found a usable mapping. -/
theorem assign_client_of_get_some {S : Type} [LinearOrder S] (closedOf : ClientId → Bool)
    (score : ClientId → List Nat → Nat → S) (r : Nat) (ps : PoolState) (g : Nat)
    (c0 : ClientId) (psx : PoolState)
    (hget : get_client closedOf ps g = .ok (some c0, psx)) :
    assign_client closedOf score r ps g = .ok (some c0, psx) := by
  unfold assign_client
  rw [hget]
  rfl

/-- Reduction of `assign_client` when the guild was unmapped and the pool
produced no best client: `_assign_client` receives `None` and raises
`TypeError`. -/
theorem assign_client_of_get_none_nobest {S : Type} [LinearOrder S]
    (closedOf : ClientId → Bool) (score : ClientId → List Nat → Nat → S) (r : Nat)
    (ps : PoolState) (g : Nat) (psx : PoolState)
    (hget : get_client closedOf ps g = .ok (none, psx))
    (hbest : find_best_client score psx g r = none) :
    assign_client closedOf score r ps g = .error .typeError := by
  have hcalc : assign_client closedOf score r ps g
      = Except.bind (assign_client_impl psx (find_best_client score psx g r) g)
          (fun ps2 => Except.ok (find_best_client score psx g r, ps2)) := by
    unfold assign_client
    rw [hget]
    rfl
  rw [hcalc, hbest]
  rfl

/-- Reduction of `assign_client` when the guild was unmapped and a best
client was found. -/
theorem assign_client_of_get_none_best {S : Type} [LinearOrder S]
    (closedOf : ClientId → Bool) (score : ClientId → List Nat → Nat → S) (r : Nat)
    (ps : PoolState) (g : Nat) (psx : PoolState) (cb : ClientId) (ps2 : PoolState)
    (hget : get_client closedOf ps g = .ok (none, psx))
    (hbest : find_best_client score psx g r = some cb)
    (himpl : assign_client_impl psx (some cb) g = .ok ps2) :
    assign_client closedOf score r ps g = .ok (some cb, ps2) := by
  have hcalc : assign_client closedOf score r ps g
      = Except.bind (assign_client_impl psx (find_best_client score psx g r) g)
          (fun p => Except.ok (find_best_client score psx g r, p)) := by
    unfold assign_client
    rw [hget]
    rfl
  rw [hcalc, hbest, himpl]
  rfl

/-- `_assign_client` on an actual client never raises: it rewrites the
guild mapping and extends the client's guild set. -/
theorem assign_client_impl_some (ps : PoolState) (c : ClientId) (g : Nat) :
    ∃ cgs, assign_client_impl ps (some c) g
      = .ok ⟨ps.clients, alSet ps.guildClients g c, cgs⟩ := by
  unfold assign_client_impl
  rcases alGet ps.clientGuilds c with _ | gids <;> exact ⟨_, rfl⟩

/-- Successful assignment leaves the guild mapped to the returned client. -/
theorem assign_client_maps {S : Type} [LinearOrder S] (closedOf : ClientId → Bool)
    (score : ClientId → List Nat → Nat → S) (r : Nat) (ps : PoolState) (g : Nat)
    (c : ClientId) (ps1 : PoolState)
    (h : assign_client closedOf score r ps g = .ok (some c, ps1)) :
    alGet ps1.guildClients g = some c := by
  rcases hget : get_client closedOf ps g with e | ⟨copt, psx⟩
  · rw [assign_client_of_get_error closedOf score r ps g e hget] at h
    simp at h
  · rcases copt with _ | c0
    · rcases hbest : find_best_client score psx g r with _ | cb
      · rw [assign_client_of_get_none_nobest closedOf score r ps g psx hget hbest] at h
        simp at h
      · obtain ⟨cgs, himpl⟩ := assign_client_impl_some psx cb g
        rw [assign_client_of_get_none_best closedOf score r ps g psx cb _ hget hbest
          himpl] at h
        simp only [Except.ok.injEq, Prod.mk.injEq, Option.some.injEq] at h
        obtain ⟨h1, h2⟩ := h
        subst h1
        rw [← h2]
        exact alGet_alSet_self _ _ _
    · rw [assign_client_of_get_some closedOf score r ps g c0 psx hget] at h
      simp only [Except.ok.injEq, Prod.mk.injEq, Option.some.injEq] at h
      obtain ⟨h1, h2⟩ := h
      subst h1
      obtain ⟨hmapped, _, hpp⟩ := get_client_some closedOf ps g c0 psx hget
      rw [← h2, hpp]
      exact hmapped

/-- C9: `assign_client` is idempotent — once a call has produced a client
for a guild (and that client is not closed), the mapping exists, a second
call returns the very same client and leaves the pool state unchanged; and
when the guild was unmapped the first call returns exactly the client
chosen by `find_best_client` and records the mapping. -/
theorem assign_client_idempotent {S1 S2 : Type} [LinearOrder S1] [LinearOrder S2]
    (closedOf : ClientId → Bool) (score1 : ClientId → List Nat → Nat → S1)
    (score2 : ClientId → List Nat → Nat → S2) (r1 r2 : Nat) (ps : PoolState)
    (g : Nat) (c : ClientId) (ps1 : PoolState)
    (hc : closedOf c = false)
    (h1 : assign_client closedOf score1 r1 ps g = .ok (some c, ps1)) :
    alGet ps1.guildClients g = some c ∧
    assign_client closedOf score2 r2 ps1 g = .ok (some c, ps1) ∧
    (alGet ps.guildClients g = none → find_best_client score1 ps g r1 = some c) := by
  have hmap : alGet ps1.guildClients g = some c :=
    assign_client_maps closedOf score1 r1 ps g c ps1 h1
  refine ⟨hmap, ?_, ?_⟩
  · have hget : get_client closedOf ps1 g = .ok (some c, ps1) := by
      rw [get_client, hmap]
      unfold check_client
      simp [hc]
    exact assign_client_of_get_some closedOf score2 r2 ps1 g c ps1 hget
  · intro hnone
    have hget : get_client closedOf ps g = .ok (none, ps) := by
      rw [get_client, hnone]
    rcases hbest : find_best_client score1 ps g r1 with _ | cb
    · rw [assign_client_of_get_none_nobest closedOf score1 r1 ps g ps hget hbest] at h1
      simp at h1
    · obtain ⟨cgs, himpl⟩ := assign_client_impl_some ps cb g
      rw [assign_client_of_get_none_best closedOf score1 r1 ps g ps cb _ hget hbest
        himpl] at h1
      simp only [Except.ok.injEq, Prod.mk.injEq, Option.some.injEq] at h1
      exact congrArg some h1.1

/-- C9, witness: a single-member pool; assigning guild 5 twice yields the
same client and the same state. -/
theorem assign_client_idempotent_witness :
    ((fun (_ : ClientId) => false) 1 = false ∧
      assign_client (S := Nat) (fun _ => false) (fun _ _ _ => 0) 0 poolA 5
        = Except.ok (some 1, poolB)) ∧
    (alGet poolB.guildClients 5 = some 1 ∧
      assign_client (S := Nat) (fun _ => false) (fun _ _ _ => 0) 3 poolB 5
        = .ok (some 1, poolB) ∧
      (alGet poolA.guildClients 5 = none →
        find_best_client (S := Nat) (fun _ _ _ => 0) poolA 5 0 = some 1)) :=
  ⟨⟨rfl, rfl⟩,
    assign_client_idempotent (fun _ => false) (fun _ _ _ => 0) (fun _ _ _ => 0) 0 3
      poolA 5 1 poolB rfl rfl⟩

/-! ### Characterisation of `remove_client`, `add_client` and `get_client` -/

theorem remove_client_spec (ps : PoolState) (c : ClientId) (ps1 : PoolState)
    (h : remove_client ps c = .ok ps1) :
    c ∈ ps.clients ∧
    ∃ gids, alGet ps.clientGuilds c = some gids ∧
      delGuilds ps.guildClients gids = some ps1.guildClients ∧
      ps1.clients = ps.clients.erase c ∧
      ps1.clientGuilds = alDel ps.clientGuilds c := by
  by_cases hmem : c ∈ ps.clients
  · unfold remove_client at h
    rw [if_pos hmem] at h
    rcases hcg : alGet ps.clientGuilds c with _ | gids
    · simp only [hcg] at h; simp at h
    · simp only [hcg] at h
      rcases hdel : delGuilds ps.guildClients gids with _ | gcs
      · rw [hdel] at h; simp at h
      · rw [hdel] at h
        simp only [Except.ok.injEq] at h
        subst h
        exact ⟨hmem, gids, rfl, by rw [hdel], rfl, rfl⟩
  · unfold remove_client at h
    rw [if_neg hmem] at h
    simp at h

theorem remove_client_get (ps : PoolState) (c : ClientId) (ps1 : PoolState)
    (inv : PoolInv ps) (h : remove_client ps c = .ok ps1) (g : Nat) :
    alGet ps1.guildClients g
      = if alGet ps.guildClients g = some c then none
        else alGet ps.guildClients g := by
  obtain ⟨hmem, gids, hcg, hdel, hcl, hcgs⟩ := remove_client_spec ps c ps1 h
  rw [delGuilds_get gids _ _ g hdel]
  by_cases hgm : g ∈ gids
  · have hs := inv.cgSound c gids hcg g hgm
    simp [hgm, hs]
  · have hne : ¬ alGet ps.guildClients g = some c := by
      intro hc2
      obtain ⟨gids2, hcg2, hgm2⟩ := inv.gcInCG g c hc2
      rw [hcg] at hcg2
      injection hcg2 with hx
      subst hx
      exact hgm hgm2
    simp [hgm, hne]

theorem add_client_spec (ps : PoolState) (c : ClientId) (ps1 : PoolState)
    (h : add_client ps c = .ok ps1) :
    c ∉ ps.clients ∧
    ps1 = ⟨ps.clients ++ [c], ps.guildClients, alSet ps.clientGuilds c []⟩ := by
  by_cases hmem : c ∈ ps.clients
  · unfold add_client at h
    rw [if_pos hmem] at h
    simp at h
  · unfold add_client at h
    rw [if_neg hmem] at h
    simp only [Except.ok.injEq] at h
    exact ⟨hmem, h.symm⟩

theorem get_client_none (closedOf : ClientId → Bool) (ps : PoolState) (g : Nat)
    (ps1 : PoolState) (inv : PoolInv ps)
    (h : get_client closedOf ps g = .ok (none, ps1)) :
    alGet ps1.guildClients g = none := by
  rcases hg : alGet ps.guildClients g with _ | c0
  · rw [get_client, hg] at h
    simp only [Except.ok.injEq, Prod.mk.injEq] at h
    rw [← h.2]
    exact hg
  · have hstep : get_client closedOf ps g = check_client closedOf ps c0 := by
      rw [get_client, hg]
    rw [hstep] at h
    unfold check_client at h
    by_cases hcl : closedOf c0 = true
    · rw [if_pos hcl] at h
      rcases hrm : remove_client ps c0 with e | ps2 <;> rw [hrm] at h
      · simp at h
      · simp only [Except.ok.injEq, Prod.mk.injEq] at h
        rw [← h.2]
        rw [remove_client_get ps c0 ps2 inv hrm g, if_pos hg]
    · rw [if_neg hcl] at h
      simp at h

/-! ### Membership facts about `find_best_client` -/

theorem bestLoop_mem {S : Type} [LinearOrder S] (l : List (ClientId × S)) :
    ∀ (best : Option S) (acc : List ClientId) (x : ClientId),
      x ∈ bestLoop best acc l → x ∈ acc ∨ x ∈ l.map Prod.fst := by
  induction l with
  | nil =>
    intro best acc x h
    simpa [bestLoop] using h
  | cons hd tl ih =>
    intro best acc x h
    obtain ⟨c, sc⟩ := hd
    simp only [List.map_cons, List.mem_cons]
    rcases best with _ | b
    · simp only [bestLoop] at h
      rcases ih _ _ _ h with h2 | h2
      · rcases List.mem_append.mp h2 with h3 | h3
        · exact Or.inl h3
        · right; left; simpa using h3
      · right; right; exact h2
    · simp only [bestLoop] at h
      by_cases hlt : sc < b
      · rw [if_pos hlt] at h
        rcases ih _ _ _ h with h2 | h2
        · exact Or.inl h2
        · right; right; exact h2
      · rw [if_neg hlt] at h
        by_cases hgt : b < sc
        · rw [if_pos hgt] at h
          rcases ih _ _ _ h with h2 | h2
          · right; left; simpa using h2
          · right; right; exact h2
        · rw [if_neg hgt] at h
          rcases ih _ _ _ h with h2 | h2
          · rcases List.mem_append.mp h2 with h3 | h3
            · exact Or.inl h3
            · right; left; simpa using h3
          · right; right; exact h2

theorem find_best_client_mem {S : Type} [LinearOrder S]
    (score : ClientId → List Nat → Nat → S) (ps : PoolState) (g r : Nat) (c : ClientId)
    (h : find_best_client score ps g r = some c) : c ∈ ps.clients := by
  unfold find_best_client randomChoice at h
  have hmem := List.get?_mem h
  rcases bestLoop_mem _ _ _ _ hmem with h2 | h2
  · simp at h2
  · unfold poolScores at h2
    simpa [List.map_map, Function.comp] using h2

/-! ### Lemmas about `setAdd` -/

theorem mem_setAdd (l : List Nat) (g x : Nat) : x ∈ setAdd l g ↔ x ∈ l ∨ x = g := by
  unfold setAdd
  by_cases h : g ∈ l
  · rw [if_pos h]
    constructor
    · exact Or.inl
    · rintro (h2 | h2)
      · exact h2
      · exact h2 ▸ h
  · rw [if_neg h]
    simp

theorem setAdd_nodup (l : List Nat) (g : Nat) (h : l.Nodup) : (setAdd l g).Nodup := by
  unfold setAdd
  by_cases hm : g ∈ l
  · rw [if_pos hm]; exact h
  · rw [if_neg hm]
    rw [List.nodup_append]
    refine ⟨h, List.nodup_singleton g, fun x hx hx2 => ?_⟩
    have hxg : x = g := by simpa using hx2
    subst hxg
    exact hm hx

/-! ### Preservation of the pool invariant -/

theorem inv_empty : PoolInv emptyPool := by
  constructor <;> simp [emptyPool, alGet]

theorem inv_add (ps : PoolState) (c : ClientId) (ps1 : PoolState) (inv : PoolInv ps)
    (h : add_client ps c = .ok ps1) : PoolInv ps1 := by
  obtain ⟨hnm, hps⟩ := add_client_spec ps c ps1 h
  subst hps
  constructor
  · rw [List.nodup_append]
    refine ⟨inv.ndClients, List.nodup_singleton c, fun x hx hx2 => ?_⟩
    have hxc : x = c := by simpa using hx2
    subst hxc
    exact hnm hx
  · exact inv.ndGC
  · exact nd_alSet _ _ _ inv.ndCG
  · intro g c2 hg
    exact List.mem_append.mpr (Or.inl (inv.gcMem g c2 hg))
  · intro g c2 hg
    obtain ⟨gids, hcg, hgm⟩ := inv.gcInCG g c2 hg
    have hne : c2 ≠ c := fun hh => hnm (hh ▸ inv.gcMem g c2 hg)
    exact ⟨gids, by rw [alGet_alSet_ne _ _ _ _ hne]; exact hcg, hgm⟩
  · intro c2 hc2
    rcases List.mem_append.mp hc2 with h2 | h2
    · have hne : c2 ≠ c := fun hh => hnm (hh ▸ h2)
      rw [alGet_alSet_ne _ _ _ _ hne]
      exact inv.cgKey c2 h2
    · have hc2c : c2 = c := by simpa using h2
      subst hc2c
      rw [alGet_alSet_self]
      rfl
  · intro c2 gids hcg
    by_cases hne : c2 = c
    · subst hne
      exact List.mem_append.mpr (Or.inr (by simp))
    · rw [alGet_alSet_ne _ _ _ _ hne] at hcg
      exact List.mem_append.mpr (Or.inl (inv.cgMem c2 gids hcg))
  · intro c2 gids hcg g hgm
    by_cases hne : c2 = c
    · subst hne
      rw [alGet_alSet_self] at hcg
      injection hcg with hx
      subst hx
      simp at hgm
    · rw [alGet_alSet_ne _ _ _ _ hne] at hcg
      exact inv.cgSound c2 gids hcg g hgm
  · intro c2 gids hcg
    by_cases hne : c2 = c
    · subst hne
      rw [alGet_alSet_self] at hcg
      injection hcg with hx
      subst hx
      exact List.nodup_nil
    · rw [alGet_alSet_ne _ _ _ _ hne] at hcg
      exact inv.cgNodup c2 gids hcg

theorem inv_remove (ps : PoolState) (c : ClientId) (ps1 : PoolState) (inv : PoolInv ps)
    (h : remove_client ps c = .ok ps1) : PoolInv ps1 := by
  obtain ⟨hmem, gids, hcg, hdel, hcl, hcgs⟩ := remove_client_spec ps c ps1 h
  have hget := remove_client_get ps c ps1 inv h
  constructor
  · rw [hcl]
    exact inv.ndClients.erase c
  · exact delGuilds_keys_nodup gids _ _ inv.ndGC hdel
  · rw [hcgs]
    exact nd_alDel _ _ inv.ndCG
  · intro g c2 hg2
    rw [hget g] at hg2
    by_cases hcc : alGet ps.guildClients g = some c
    · rw [if_pos hcc] at hg2
      exact absurd hg2 (by simp)
    · rw [if_neg hcc] at hg2
      have hne : c2 ≠ c := fun hh => hcc (hh ▸ hg2)
      rw [hcl]
      exact (List.Nodup.mem_erase_iff inv.ndClients).mpr ⟨hne, inv.gcMem g c2 hg2⟩
  · intro g c2 hg2
    rw [hget g] at hg2
    by_cases hcc : alGet ps.guildClients g = some c
    · rw [if_pos hcc] at hg2
      exact absurd hg2 (by simp)
    · rw [if_neg hcc] at hg2
      obtain ⟨gids2, hcg2, hgm2⟩ := inv.gcInCG g c2 hg2
      have hne : c2 ≠ c := fun hh => hcc (hh ▸ hg2)
      rw [hcgs]
      exact ⟨gids2, by rw [alGet_alDel_ne _ _ _ hne]; exact hcg2, hgm2⟩
  · intro c2 hc2
    rw [hcl] at hc2
    obtain ⟨hne, hmem2⟩ := (List.Nodup.mem_erase_iff inv.ndClients).mp hc2
    rw [hcgs, alGet_alDel_ne _ _ _ hne]
    exact inv.cgKey c2 hmem2
  · intro c2 gids2 hcg2
    rw [hcgs] at hcg2
    by_cases hne : c2 = c
    · subst hne
      rw [alGet_alDel_self] at hcg2
      exact absurd hcg2 (by simp)
    · rw [alGet_alDel_ne _ _ _ hne] at hcg2
      rw [hcl]
      exact (List.Nodup.mem_erase_iff inv.ndClients).mpr ⟨hne, inv.cgMem c2 gids2 hcg2⟩
  · intro c2 gids2 hcg2 g hgm2
    rw [hcgs] at hcg2
    by_cases hne : c2 = c
    · subst hne
      rw [alGet_alDel_self] at hcg2
      exact absurd hcg2 (by simp)
    · rw [alGet_alDel_ne _ _ _ hne] at hcg2
      have hold := inv.cgSound c2 gids2 hcg2 g hgm2
      rw [hget g]
      have hcc : ¬ alGet ps.guildClients g = some c := by
        rw [hold]
        simp [hne]
      rw [if_neg hcc]
      exact hold
  · intro c2 gids2 hcg2
    rw [hcgs] at hcg2
    by_cases hne : c2 = c
    · subst hne
      rw [alGet_alDel_self] at hcg2
      exact absurd hcg2 (by simp)
    · rw [alGet_alDel_ne _ _ _ hne] at hcg2
      exact inv.cgNodup c2 gids2 hcg2

theorem inv_check (closedOf : ClientId → Bool) (ps : PoolState) (c : ClientId)
    (copt : Option ClientId) (ps1 : PoolState) (inv : PoolInv ps)
    (h : check_client closedOf ps c = .ok (copt, ps1)) : PoolInv ps1 := by
  unfold check_client at h
  by_cases hcl : closedOf c = true
  · rw [if_pos hcl] at h
    rcases hrm : remove_client ps c with e | ps2 <;> rw [hrm] at h
    · simp at h
    · simp only [Except.ok.injEq, Prod.mk.injEq] at h
      rw [← h.2]
      exact inv_remove ps c ps2 inv hrm
  · rw [if_neg hcl] at h
    simp only [Except.ok.injEq, Prod.mk.injEq] at h
    rw [← h.2]
    exact inv

theorem inv_get (closedOf : ClientId → Bool) (ps : PoolState) (g : Nat)
    (copt : Option ClientId) (ps1 : PoolState) (inv : PoolInv ps)
    (h : get_client closedOf ps g = .ok (copt, ps1)) : PoolInv ps1 := by
  rcases hg : alGet ps.guildClients g with _ | c0
  · rw [get_client, hg] at h
    simp only [Except.ok.injEq, Prod.mk.injEq] at h
    rw [← h.2]
    exact inv
  · have hstep : get_client closedOf ps g = check_client closedOf ps c0 := by
      rw [get_client, hg]
    rw [hstep] at h
    exact inv_check closedOf ps c0 copt ps1 inv h

theorem inv_assign_impl (ps : PoolState) (c : ClientId) (g : Nat) (ps2 : PoolState)
    (inv : PoolInv ps) (hcm : c ∈ ps.clients) (hun : alGet ps.guildClients g = none)
    (h : assign_client_impl ps (some c) g = .ok ps2) : PoolInv ps2 := by
  rcases hcg : alGet ps.clientGuilds c with _ | gids
  · have hk := inv.cgKey c hcm
    rw [hcg] at hk
    simp at hk
  · unfold assign_client_impl at h
    simp only [hcg] at h
    simp only [Except.ok.injEq] at h
    subst h
    constructor
    · exact inv.ndClients
    · exact nd_alSet _ _ _ inv.ndGC
    · exact nd_alSet _ _ _ inv.ndCG
    · intro g2 c2 hg2
      by_cases hgg : g2 = g
      · subst hgg
        rw [alGet_alSet_self] at hg2
        injection hg2 with hx
        subst hx
        exact hcm
      · rw [alGet_alSet_ne _ _ _ _ hgg] at hg2
        exact inv.gcMem g2 c2 hg2
    · intro g2 c2 hg2
      by_cases hgg : g2 = g
      · subst hgg
        rw [alGet_alSet_self] at hg2
        injection hg2 with hx
        subst hx
        exact ⟨setAdd gids g2, alGet_alSet_self _ _ _, (mem_setAdd gids g2 g2).mpr
          (Or.inr rfl)⟩
      · rw [alGet_alSet_ne _ _ _ _ hgg] at hg2
        obtain ⟨gids2, hcg2, hgm⟩ := inv.gcInCG g2 c2 hg2
        by_cases hcc : c2 = c
        · subst hcc
          rw [hcg] at hcg2
          injection hcg2 with hx
          subst hx
          exact ⟨setAdd gids g, alGet_alSet_self _ _ _, (mem_setAdd gids g g2).mpr
            (Or.inl hgm)⟩
        · rw [alGet_alSet_ne _ _ _ _ hcc]
          exact ⟨gids2, hcg2, hgm⟩
    · intro c2 hc2
      by_cases hcc : c2 = c
      · subst hcc
        rw [alGet_alSet_self]
        rfl
      · rw [alGet_alSet_ne _ _ _ _ hcc]
        exact inv.cgKey c2 hc2
    · intro c2 gids2 hcg2
      by_cases hcc : c2 = c
      · subst hcc
        exact hcm
      · rw [alGet_alSet_ne _ _ _ _ hcc] at hcg2
        exact inv.cgMem c2 gids2 hcg2
    · intro c2 gids2 hcg2 g2 hgm2
      by_cases hcc : c2 = c
      · subst hcc
        rw [alGet_alSet_self] at hcg2
        injection hcg2 with hx
        subst hx
        rcases (mem_setAdd gids g g2).mp hgm2 with h2 | h2
        · have hold := inv.cgSound c2 gids hcg g2 h2
          have hne : g2 ≠ g := by
            intro hh
            rw [hh, hun] at hold
            exact absurd hold (by simp)
          rw [alGet_alSet_ne _ _ _ _ hne]
          exact hold
        · subst h2
          exact alGet_alSet_self _ _ _
      · rw [alGet_alSet_ne _ _ _ _ hcc] at hcg2
        have hold := inv.cgSound c2 gids2 hcg2 g2 hgm2
        have hne : g2 ≠ g := by
          intro hh
          rw [hh, hun] at hold
          exact absurd hold (by simp)
        rw [alGet_alSet_ne _ _ _ _ hne]
        exact hold
    · intro c2 gids2 hcg2
      by_cases hcc : c2 = c
      · subst hcc
        rw [alGet_alSet_self] at hcg2
        injection hcg2 with hx
        subst hx
        exact setAdd_nodup gids g (inv.cgNodup c2 gids hcg)
      · rw [alGet_alSet_ne _ _ _ _ hcc] at hcg2
        exact inv.cgNodup c2 gids2 hcg2

theorem inv_assign {S : Type} [LinearOrder S] (closedOf : ClientId → Bool)
    (score : ClientId → List Nat → Nat → S) (r : Nat) (ps : PoolState) (g : Nat)
    (copt : Option ClientId) (ps1 : PoolState) (inv : PoolInv ps)
    (h : assign_client closedOf score r ps g = .ok (copt, ps1)) : PoolInv ps1 := by
  rcases hget : get_client closedOf ps g with e | ⟨copt2, psx⟩
  · rw [assign_client_of_get_error closedOf score r ps g e hget] at h
    simp at h
  · have hinvx := inv_get closedOf ps g copt2 psx inv hget
    rcases copt2 with _ | c0
    · rcases hbest : find_best_client score psx g r with _ | cb
      · rw [assign_client_of_get_none_nobest closedOf score r ps g psx hget hbest] at h
        simp at h
      · obtain ⟨cgs, himpl⟩ := assign_client_impl_some psx cb g
        rw [assign_client_of_get_none_best closedOf score r ps g psx cb _ hget hbest
          himpl] at h
        simp only [Except.ok.injEq, Prod.mk.injEq] at h
        rw [← h.2]
        exact inv_assign_impl psx cb g _ hinvx
          (find_best_client_mem score psx g r cb hbest)
          (get_client_none closedOf ps g psx inv hget) himpl
    · rw [assign_client_of_get_some closedOf score r ps g c0 psx hget] at h
      simp only [Except.ok.injEq, Prod.mk.injEq] at h
      rw [← h.2]
      exact hinvx

theorem reachable_inv (ps : PoolState) (h : Reachable ps) : PoolInv ps := by
  induction h with
  | empty => exact inv_empty
  | add ps c ps1 _ heq ih => exact inv_add ps c ps1 ih heq
  | remove ps c ps1 _ heq ih => exact inv_remove ps c ps1 ih heq
  | get ps closedOf g copt ps1 _ heq ih => exact inv_get closedOf ps g copt ps1 ih heq
  | assign S instS ps closedOf score r g copt ps1 _ heq ih =>
    exact @inv_assign S instS closedOf score r ps g copt ps1 ih heq

/-! ### Claim theorems: guild-mapping invariant (C6) -/

/-- C6: in every reachable pool state, a guild id present in the
guild-to-client mapping is mapped to a current member of the pool — the
membership needs nothing beyond reachability and the mapping itself — and
whenever `remove_client` succeeds on that client it deletes the mapping
entry of every guild assigned to it, leaving those guilds unassigned. -/
theorem pool_guild_keys_are_members (ps : PoolState) (g : Nat) (c : ClientId)
    (hre : Reachable ps)
    (hmap : alGet ps.guildClients g = some c) :
    c ∈ ps.clients ∧
    ∀ ps1 : PoolState, remove_client ps c = Except.ok ps1 →
      alGet ps1.guildClients g = none := by
  have inv := reachable_inv ps hre
  refine ⟨inv.gcMem g c hmap, fun ps1 hrm => ?_⟩
  rw [remove_client_get ps c ps1 inv hrm g, if_pos hmap]

/-- C6, witness: the pool reached by adding client 1 and assigning guild 5;
client 1 is a member, and removing it unassigns guild 5. -/
theorem pool_guild_keys_are_members_witness :
    (Reachable poolB ∧ alGet poolB.guildClients 5 = some 1) ∧
    (1 ∈ poolB.clients ∧
      ∀ ps1 : PoolState, remove_client poolB 1 = Except.ok ps1 →
        alGet ps1.guildClients 5 = none) :=
  ⟨⟨Reachable.assign Nat inferInstance poolA (fun _ => false) (fun _ _ _ => 0) 0 5
      (some 1) poolB (Reachable.add emptyPool 1 poolA Reachable.empty rfl) rfl,
    rfl⟩,
    pool_guild_keys_are_members poolB 5 1
      (Reachable.assign Nat inferInstance poolA (fun _ => false) (fun _ _ _ => 0) 0 5
        (some 1) poolB (Reachable.add emptyPool 1 poolA Reachable.empty rfl) rfl)
      rfl⟩

/-! ### The winner list of `find_best_client`: exactly the maximal scorers -/

theorem le_runMax {S : Type} [LinearOrder S] (b : S) (l : List (ClientId × S)) :
    b ≤ runMax b l := by
  induction l generalizing b with
  | nil => simp [runMax]
  | cons hd tl ih =>
    obtain ⟨c, sc⟩ := hd
    exact le_trans (le_max_left b sc) (ih (max b sc))

theorem runMax_of_mem {S : Type} [LinearOrder S] (b : S) (l : List (ClientId × S))
    (p : ClientId × S) (h : p ∈ l) : p.2 ≤ runMax b l := by
  induction l generalizing b with
  | nil => simp at h
  | cons hd tl ih =>
    obtain ⟨c, sc⟩ := hd
    rcases List.mem_cons.mp h with h2 | h2
    · subst h2
      simp only [runMax]
      exact le_trans (le_max_right b sc) (le_runMax _ tl)
    · exact ih (max b sc) h2

theorem runMax_attains {S : Type} [LinearOrder S] (b : S) (l : List (ClientId × S)) :
    runMax b l = b ∨ ∃ p ∈ l, runMax b l = p.2 := by
  induction l generalizing b with
  | nil => exact Or.inl rfl
  | cons hd tl ih =>
    obtain ⟨c, sc⟩ := hd
    simp only [runMax]
    rcases ih (max b sc) with h | ⟨p, hp, hpe⟩
    · rcases max_cases b sc with ⟨hm, _⟩ | ⟨hm, _⟩
      · exact Or.inl (by rw [h, hm])
      · exact Or.inr ⟨(c, sc), by simp, by rw [h, hm]⟩
    · exact Or.inr ⟨p, List.mem_cons_of_mem _ hp, hpe⟩

theorem bestLoop_spec {S : Type} [LinearOrder S] (l : List (ClientId × S)) :
    ∀ (b : S) (acc : List ClientId),
      bestLoop (some b) acc l
        = (if runMax b l = b then acc else []) ++
          (l.filter (fun p => decide (p.2 = runMax b l))).map Prod.fst := by
  induction l with
  | nil =>
    intro b acc
    simp [bestLoop, runMax]
  | cons hd tl ih =>
    intro b acc
    obtain ⟨c, sc⟩ := hd
    simp only [bestLoop, runMax]
    rcases lt_trichotomy sc b with hlt | heq | hgt
    · rw [if_pos hlt]
      have hmax : max b sc = b := max_eq_left hlt.le
      simp only [hmax]
      rw [ih b acc]
      have hne : ¬ (sc = runMax b tl) := by
        intro hh
        exact absurd (le_runMax b tl) (not_le.mpr (hh ▸ hlt))
      simp [List.filter_cons, hne]
    · subst heq
      rw [if_neg (lt_irrefl sc), if_neg (lt_irrefl sc)]
      simp only [max_self]
      rw [ih sc (acc ++ [c])]
      by_cases hM : runMax sc tl = sc
      · rw [if_pos hM, if_pos hM]
        simp [List.filter_cons, hM, List.append_assoc]
      · rw [if_neg hM, if_neg hM]
        have hne : ¬ (sc = runMax sc tl) := fun hh => hM hh.symm
        simp [List.filter_cons, hne]
    · rw [if_neg (asymm hgt), if_pos hgt]
      have hmax : max b sc = sc := max_eq_right hgt.le
      simp only [hmax]
      rw [ih sc [c]]
      have hltM : b < runMax sc tl := lt_of_lt_of_le hgt (le_runMax sc tl)
      rw [if_neg (ne_of_gt hltM)]
      by_cases hM : runMax sc tl = sc
      · rw [if_pos hM]
        simp [List.filter_cons, hM]
      · rw [if_neg hM]
        have hne : ¬ (sc = runMax sc tl) := fun hh => hM hh.symm
        simp [List.filter_cons, hne]

theorem bestClients_cons {S : Type} [LinearOrder S] (c0 : ClientId) (sc0 : S)
    (tl : List (ClientId × S)) :
    bestClients ((c0, sc0) :: tl)
      = (((c0, sc0) :: tl).filter
          (fun p => decide (p.2 = runMax sc0 tl))).map Prod.fst := by
  have h0 : bestClients ((c0, sc0) :: tl) = bestLoop (some sc0) [c0] tl := rfl
  rw [h0, bestLoop_spec tl sc0 [c0]]
  by_cases hM : runMax sc0 tl = sc0
  · rw [if_pos hM]
    simp [List.filter_cons, hM]
  · rw [if_neg hM]
    have hne : ¬ (sc0 = runMax sc0 tl) := fun hh => hM hh.symm
    simp [List.filter_cons, hne]

theorem filter_pair_map {S : Type} [LinearOrder S] (f : ClientId → S) (M : S)
    (l : List ClientId) :
    ((l.map (fun x => (x, f x))).filter (fun p => decide (p.2 = M))).map Prod.fst
      = l.filter (fun x => decide (f x = M)) := by
  induction l with
  | nil => rfl
  | cons x xs ih =>
    by_cases hq : f x = M
    · simp [List.filter_cons, hq, ih]
    · simp [List.filter_cons, hq, ih]

/-! ### Counting lemmas for the uniform random choice -/

theorem countP_range_get {α : Type} [DecidableEq α] (l : List α) (c : α) :
    (List.range l.length).countP (fun i => decide (l.get? i = some c))
      = l.count c := by
  induction l with
  | nil => simp
  | cons x xs ih =>
    rw [List.length_cons, List.range_succ_eq_map, List.countP_cons, List.countP_map]
    have hcomp : ((fun i => decide ((x :: xs).get? i = some c)) ∘ Nat.succ)
        = fun i => decide (xs.get? i = some c) := by
      funext i
      simp [List.get?_cons_succ]
    rw [hcomp, ih]
    by_cases hxc : x = c
    · subst hxc
      simp [List.get?_cons_zero, List.count_cons]
    · simp [List.get?_cons_zero, List.count_cons, hxc, Ne.symm hxc]

theorem countP_range_choice (l : List ClientId) (c : ClientId) :
    (List.range l.length).countP (fun i => decide (randomChoice l i = some c))
      = l.count c := by
  rw [← countP_range_get l c]
  refine List.countP_congr (fun i hi => ?_)
  have hlt : i < l.length := List.mem_range.mp hi
  simp [randomChoice, Nat.mod_eq_of_lt hlt]

theorem count_filter_nodup {α : Type} [DecidableEq α] (l : List α) (p : α → Bool)
    (c : α) (hnd : l.Nodup) (hc : c ∈ l) (hp : p c = true) :
    (l.filter p).count c = 1 :=
  List.count_eq_one_of_mem (hnd.filter p) (List.mem_filter.mpr ⟨hc, hp⟩)

/-- The winner list over scored members is exactly the filter of the
maximal-score members, for some score bound `M` that bounds every member
and is attained. -/
theorem bestClients_filter {S : Type} [LinearOrder S] (f : ClientId → S)
    (l : List ClientId) (hne : l ≠ []) :
    ∃ M : S, bestClients (l.map (fun x => (x, f x)))
        = l.filter (fun x => decide (f x = M)) ∧
      (∀ x ∈ l, f x ≤ M) ∧ (∃ x ∈ l, f x = M) := by
  rcases l with _ | ⟨c0, cs⟩
  · exact absurd rfl hne
  · refine ⟨runMax (f c0) (cs.map (fun x => (x, f x))), ?_, ?_, ?_⟩
    · have hmc : ((c0 :: cs).map (fun x => (x, f x)))
          = ((c0, f c0) :: cs.map (fun x => (x, f x))) := rfl
      rw [hmc, bestClients_cons]
      exact filter_pair_map f _ (c0 :: cs)
    · intro x hx
      rcases List.mem_cons.mp hx with h2 | h2
      · subst h2
        exact le_runMax _ _
      · exact runMax_of_mem _ _ (x, f x) (List.mem_map.mpr ⟨x, h2, rfl⟩)
    · rcases runMax_attains (f c0) (cs.map (fun x => (x, f x))) with h2 | ⟨p, hp, hpe⟩
      · exact ⟨c0, by simp, h2.symm⟩
      · obtain ⟨x, hx, hxp⟩ := List.mem_map.mp hp
        refine ⟨x, List.mem_cons_of_mem _ hx, ?_⟩
        rw [← hxp] at hpe
        exact hpe.symm

/-! ### Claim theorems: scoring-maximal choice with uniform tie-break (C5) -/

/-- C5: an `assign_client` call on an unmapped guild in a pool with
duplicate-free members returns a client of maximal score among all members,
and the random draw is uniform over exactly the maximal-score clients: any
member of maximal score (such as `cmax`) is returned for exactly one of the
`(bestClients ...).length` equally likely values of the random index,
independently of member order. -/
theorem assign_best_uniform {S : Type} [LinearOrder S] (closedOf : ClientId → Bool)
    (score : ClientId → List Nat → Nat → S) (r : Nat) (ps : PoolState) (g : Nat)
    (c : ClientId) (ps1 : PoolState) (cmax : ClientId)
    (hmap : alGet ps.guildClients g = none) (hnd : ps.clients.Nodup)
    (hassign : assign_client closedOf score r ps g = .ok (some c, ps1))
    (hcm : cmax ∈ ps.clients)
    (hmax : ∀ c2 ∈ ps.clients, scoreAt score ps g c2 ≤ scoreAt score ps g cmax) :
    (c ∈ ps.clients ∧
      ∀ c2 ∈ ps.clients, scoreAt score ps g c2 ≤ scoreAt score ps g c) ∧
    0 < (bestClients (poolScores score ps g)).length ∧
    (List.range (bestClients (poolScores score ps g)).length).countP
        (fun r2 => decide (find_best_client score ps g r2 = some cmax)) = 1 := by
  have hget : get_client closedOf ps g = .ok (none, ps) := by
    rw [get_client, hmap]
  rcases hbest : find_best_client score ps g r with _ | cb
  · rw [assign_client_of_get_none_nobest closedOf score r ps g ps hget hbest]
      at hassign
    simp at hassign
  · obtain ⟨cgs, himpl⟩ := assign_client_impl_some ps cb g
    rw [assign_client_of_get_none_best closedOf score r ps g ps cb _ hget hbest himpl]
      at hassign
    simp only [Except.ok.injEq, Prod.mk.injEq, Option.some.injEq] at hassign
    have hbc : find_best_client score ps g r = some c := by
      rw [hbest, hassign.1]
    clear hbest hassign himpl
    have hps : poolScores score ps g
        = ps.clients.map (fun x => (x, scoreAt score ps g x)) := rfl
    have hnonempty : ps.clients ≠ [] := by
      intro hnil
      rw [find_best_client, randomChoice, hps, hnil] at hbc
      simp [bestClients, bestLoop] at hbc
    obtain ⟨M, hbceq, hub, hattain⟩ :=
      bestClients_filter (scoreAt score ps g) ps.clients hnonempty
    have hcbc : c ∈ bestClients (poolScores score ps g) := by
      rw [find_best_client, randomChoice] at hbc
      exact List.get?_mem hbc
    have hcprop : c ∈ ps.clients ∧ scoreAt score ps g c = M := by
      rw [hps, hbceq] at hcbc
      have hmf := List.mem_filter.mp hcbc
      exact ⟨hmf.1, by simpa using hmf.2⟩
    have hcmaxM : scoreAt score ps g cmax = M := by
      obtain ⟨x, hxm, hxe⟩ := hattain
      exact le_antisymm (hub cmax hcm) (by rw [← hxe]; exact hmax x hxm)
    refine ⟨⟨hcprop.1, fun c2 hc2 => ?_⟩, ?_, ?_⟩
    · rw [hcprop.2]
      exact hub c2 hc2
    · exact List.length_pos.mpr (List.ne_nil_of_mem hcbc)
    · have hcount : (bestClients (poolScores score ps g)).count cmax = 1 := by
        rw [hps, hbceq]
        exact count_filter_nodup _ _ _ hnd hcm (by simp [hcmaxM])
      rw [← hcount, ← countP_range_choice]
      refine List.countP_congr (fun i _ => ?_)
      rw [find_best_client]

/-- C5, witness: three equally scored members; the chosen client is maximal
and client 2 is picked for exactly one of the three equally likely random
indices. -/
theorem assign_best_uniform_witness :
    (alGet poolTriple.guildClients 7 = none ∧ poolTriple.clients.Nodup ∧
      assign_client (S := Nat) (fun _ => false) (fun _ _ _ => 5) 1 poolTriple 7
        = Except.ok (some 2,
            PoolState.mk [1, 2, 3] [(7, 2)] [(1, []), (2, [7]), (3, [])]) ∧
      2 ∈ poolTriple.clients ∧
      (∀ c2 ∈ poolTriple.clients, scoreAt (fun _ _ _ => (5 : Nat)) poolTriple 7 c2
        ≤ scoreAt (fun _ _ _ => (5 : Nat)) poolTriple 7 2)) ∧
    ((2 ∈ poolTriple.clients ∧
      ∀ c2 ∈ poolTriple.clients, scoreAt (fun _ _ _ => (5 : Nat)) poolTriple 7 c2
        ≤ scoreAt (fun _ _ _ => (5 : Nat)) poolTriple 7 2) ∧
    0 < (bestClients (poolScores (fun _ _ _ => (5 : Nat)) poolTriple 7)).length ∧
    (List.range (bestClients (poolScores (fun _ _ _ => (5 : Nat))
        poolTriple 7)).length).countP
      (fun r2 => decide (find_best_client (fun _ _ _ => (5 : Nat)) poolTriple 7 r2
        = some 2)) = 1) :=
  ⟨⟨rfl, by decide, rfl, by decide, by decide⟩,
    assign_best_uniform (fun _ => false) (fun _ _ _ => 5) 1 poolTriple 7 2
      (PoolState.mk [1, 2, 3] [(7, 2)] [(1, []), (2, [7]), (3, [])]) 2
      rfl (by decide) rfl (by decide) (by decide)⟩

end Andesite
